import Mathlib

/-!
# Verification of the K-Menu command palette core

Shallow embedding of the interaction engine of the K-Menu command palette
(`src/renderer/components/k-menu-palette.ts`): the resource data model, the
fuzzy search and ranking pipeline, the filter engine, the attribute-suggestion
derivation, the correlated message channel, the command dispatcher and the
per-context resource cache.  JavaScript strings are embedded as Lean `String`
values, lowered to `List Char` for character-level operations; JavaScript
numbers used for scores are embedded as `ℚ` (every score arising in the code
is an exact small rational, so this is faithful).  Effectful code is embedded
as explicit state passing (the palette's mutable fields become record fields)
or as event traces.
-/

namespace KMenu

/-- `KubeResource` record from `k-menu-palette.ts` (lines 10-16).  The source
field `namespace` is a reserved word in Lean, so it is named `ns` here; it is
optional exactly as in the source. -/
structure KubeResource where
  kind : String
  name : String
  ns : Option String
  uid : String
  apiVersion : String
deriving DecidableEq, Repr

/-- JavaScript truthiness of an optional string: `undefined` and the empty
string are falsy, every other string is truthy. -/
def optTruthy : Option String → Bool
  | some s => s != ""
  | none => false

/-- Lowercasing of a string to a character list, embedding
`String.prototype.toLowerCase` as applied to the identifiers handled by the
palette. -/
def lc (s : String) : List Char := s.data.map Char.toLower

/-- Character-list version of `String.prototype.startsWith` restricted to a
needle tested at the front of the haystack. -/
def leadMatch : List Char → List Char → Bool
  | [], _ => true
  | _ :: _, [] => false
  | a :: as, b :: bs => a == b && leadMatch as bs

/-- Character-list embedding of `String.prototype.includes`: does `needle`
occur contiguously inside `hay`? -/
def containsSub (needle : List Char) : List Char → Bool
  | [] => leadMatch needle []
  | c :: t => leadMatch needle (c :: t) || containsSub needle t

/-- `getDisplayText` (lines 1482-1487): `kind/namespace/name` when the
namespace is present (and truthy), otherwise `kind/name`. -/
def getDisplayText (r : KubeResource) : String :=
  match r.ns with
  | some n => if n != "" then r.kind ++ "/" ++ n ++ "/" ++ r.name else r.kind ++ "/" ++ r.name
  | none => r.kind ++ "/" ++ r.name

/-- `fuzzyMatch` (lines 1463-1480) greedy scan: the number of query
characters matched, in order, while walking the text left to right.  In the
source, `score` and `queryIndex` are incremented together in the single
branch that consumes a query character, so one counter represents both. -/
def fuzzyScan : List Char → List Char → Nat
  | _, [] => 0
  | [], _ :: _ => 0
  | t :: ts, q :: qs => if t = q then fuzzyScan ts qs + 1 else fuzzyScan ts (q :: qs)

/-- `fuzzyMatch(text, query)` (lines 1463-1480): if the greedy scan consumed
the whole query, return `score / query.length`, else `0`. -/
def fuzzyMatch (text query : List Char) : ℚ :=
  if fuzzyScan text query = query.length then (fuzzyScan text query : ℚ) / (query.length : ℚ)
  else 0

theorem fuzzyScan_eq_length_iff (text query : List Char) :
    fuzzyScan text query = query.length ↔ query.Sublist text := by
  induction text generalizing query with
  | nil =>
    cases query with
    | nil => simp [fuzzyScan]
    | cons q qs => simp [fuzzyScan]
  | cons t ts ih =>
    cases query with
    | nil => simp [fuzzyScan]
    | cons q qs =>
      by_cases h : t = q
      · subst h
        constructor
        · intro hlen
          have : fuzzyScan ts qs = qs.length := by
            simpa [fuzzyScan] using hlen
          exact List.Sublist.cons₂ t ((ih qs).mp this)
        · intro hsub
          have hqs : qs.Sublist ts := by
            cases hsub with
            | cons _ htail => exact (List.sublist_cons_self t qs).trans htail
            | cons₂ _ htail => exact htail
          simp [fuzzyScan, (ih qs).mpr hqs]
      · constructor
        · intro hlen
          have : fuzzyScan ts (q :: qs) = (q :: qs).length := by
            simpa [fuzzyScan, h] using hlen
          exact ((ih (q :: qs)).mp this).cons t
        · intro hsub
          have htail : (q :: qs).Sublist ts := by
            cases hsub with
            | cons _ htail => exact htail
            | cons₂ _ _ => exact absurd rfl h
          simpa [fuzzyScan, h] using (ih (q :: qs)).mpr htail

/-- C10: for a non-empty query, `fuzzyMatch` is exactly `1` when the query is
an in-order subsequence of the text and exactly `0` otherwise; in particular
the weighted fuzzy fallback `fuzzyMatch * 2` contributes exactly `2` or `0`
to a search term's score, never a value strictly in between. -/
theorem fuzzyMatch_zero_or_one (text query : List Char) (h : query ≠ []) :
    fuzzyMatch text query = (if query.Sublist text then 1 else 0) ∧
    fuzzyMatch text query * 2 = (if query.Sublist text then 2 else 0) := by
  have hlen : (query.length : ℚ) ≠ 0 :=
    Nat.cast_ne_zero.mpr (fun hq => h (List.length_eq_zero.mp hq))
  by_cases hsub : query.Sublist text
  · have hscan : fuzzyScan text query = query.length :=
      (fuzzyScan_eq_length_iff text query).mpr hsub
    constructor
    · simp [fuzzyMatch, hscan, hsub, div_self hlen]
    · simp [fuzzyMatch, hscan, hsub, div_self hlen]
  · have hscan : fuzzyScan text query ≠ query.length :=
      fun hq => hsub ((fuzzyScan_eq_length_iff text query).mp hq)
    constructor
    · simp [fuzzyMatch, hscan, hsub]
    · simp [fuzzyMatch, hscan, hsub]

/-- Witness for `fuzzyMatch_zero_or_one` at the concrete text `"abc"` and
query `"ac"` (a subsequence but not a substring). -/
theorem fuzzyMatch_zero_or_one_witness :
    fuzzyMatch "abc".data "ac".data = (if "ac".data.Sublist "abc".data then 1 else 0) ∧
    fuzzyMatch "abc".data "ac".data * 2 = (if "ac".data.Sublist "abc".data then 2 else 0) :=
  fuzzyMatch_zero_or_one "abc".data "ac".data (by decide)

/-! ## Filters and the search pipeline (`performSearch`, lines 1365-1461) -/

/-- Filter attribute (`Filter.type` in the source, lines 24-27): `kind`,
`namespace` (here `ns`) or `node`. -/
inductive FilterType where
  | kind
  | ns
  | node
deriving DecidableEq, Repr

/-- `Filter` record (lines 24-27).  The source field `type` keeps its name. -/
structure Filter where
  type : FilterType
  value : String
deriving DecidableEq, Repr

/-- One filter's test on one resource, embedded from the `switch` inside
`performSearch` (lines 1377-1398; the identical `switch` appears in
`renderCommandResourceList`, lines 1811-1829): a `kind` filter compares the
lowercased kind for equality, a `namespace` filter compares the lowercased
namespace (absent namespace never matches), and a `node` filter matches only
resources whose kind is exactly the string `Node` and whose lowercased name
equals the lowercased filter value. -/
def matchesFilter (f : Filter) (r : KubeResource) : Bool :=
  match f.type with
  | .kind => lc r.kind == lc f.value
  | .ns =>
    match r.ns with
    | some s => lc s == lc f.value
    | none => false
  | .node => r.kind == "Node" && (lc r.name == lc f.value)

/-- The `activeFilters.forEach` loop of `performSearch` (lines 1377-1398):
each active filter narrows the running resource list in turn. -/
def applyFilters (resources : List KubeResource) (filters : List Filter) : List KubeResource :=
  filters.foldl (fun acc f => acc.filter (fun r => matchesFilter f r)) resources

/-- Splitter for `query.split(/\s+/)` over a character list: pieces between
whitespace characters, in order (runs of whitespace produce empty pieces,
removed by the caller's length filter exactly as in the source). -/
def splitWsAux : List Char → List Char → List (List Char)
  | [], acc => [acc.reverse]
  | c :: cs, acc =>
    if c.isWhitespace then acc.reverse :: splitWsAux cs [] else splitWsAux cs (c :: acc)

/-- `query.toLowerCase().split(/\s+/).filter(term => term.length > 0)`
(line 1409): the lowercased search terms of a query. -/
def searchTerms (query : String) : List (List Char) :=
  (splitWsAux (lc query) []).filter (fun t => t.length > 0)

/-- Lowercased display text of a resource (`displayTextLower`, line 1414). -/
def displayTextLower (r : KubeResource) : List Char := lc (getDisplayText r)

/-- Lowercased name (`nameLower`, line 1415). -/
def nameLower (r : KubeResource) : List Char := lc r.name

/-- Lowercased kind (`kindLower`, line 1416). -/
def kindLower (r : KubeResource) : List Char := lc r.kind

/-- Lowercased namespace with `''` for an absent namespace
(`namespaceLower`, line 1417). -/
def namespaceLower (r : KubeResource) : List Char :=
  match r.ns with
  | some s => lc s
  | none => []

/-- The score one term contributes when it matches: the tier cascade of the
term loop in `performSearch` (lines 1422-1446) — display text substring 10,
name substring 8, kind substring 6, namespace substring 5, otherwise the
fuzzy fallback weighted by 2. -/
def termScore (r : KubeResource) (term : List Char) : ℚ :=
  if containsSub term (displayTextLower r) then 10
  else if containsSub term (nameLower r) then 8
  else if containsSub term (kindLower r) then 6
  else if containsSub term (namespaceLower r) then 5
  else fuzzyMatch (displayTextLower r) term * 2

/-- Does a term match a resource through any tier of the cascade (including a
strictly positive fuzzy fallback)? -/
def termMatches (r : KubeResource) (term : List Char) : Bool :=
  containsSub term (displayTextLower r) || containsSub term (nameLower r) ||
    containsSub term (kindLower r) || containsSub term (namespaceLower r) ||
    decide (0 < fuzzyMatch (displayTextLower r) term)

/-- The `for (const term of searchTerms)` accumulator loop of `performSearch`
(lines 1420-1446): add the tier score of each term in turn; if some term
matches no tier and its fuzzy score is zero, return `0` for the whole item
(the early `return` with `matchScore: 0`). -/
def matchScoreGo (r : KubeResource) : List (List Char) → ℚ → ℚ
  | [], acc => acc
  | term :: rest, acc =>
    if containsSub term (displayTextLower r) then matchScoreGo r rest (acc + 10)
    else if containsSub term (nameLower r) then matchScoreGo r rest (acc + 8)
    else if containsSub term (kindLower r) then matchScoreGo r rest (acc + 6)
    else if containsSub term (namespaceLower r) then matchScoreGo r rest (acc + 5)
    else if 0 < fuzzyMatch (displayTextLower r) term then
      matchScoreGo r rest (acc + fuzzyMatch (displayTextLower r) term * 2)
    else 0

/-- Total match score of a resource against the term list (`totalScore` in
`performSearch`). -/
def matchScore (r : KubeResource) (terms : List (List Char)) : ℚ :=
  matchScoreGo r terms 0

/-- The map-then-filter stage of `performSearch` (lines 1411-1454): score
every filtered resource and keep the score-positive ones, in collection
order. -/
def scoreResults (resources : List KubeResource) (terms : List (List Char)) :
    List (KubeResource × ℚ) :=
  (resources.map (fun r => (r, matchScore r terms))).filter (fun p => decide (0 < p.2))

/-- Stable insertion of a scored result into a descending-by-score list:
existing entries with a strictly greater score stay in front, and an entry
with an equal score stays in front of later-inserted ones.  Models the stable
`sort((a, b) => b.matchScore - a.matchScore)` of line 1455. -/
def insertByScore (x : KubeResource × ℚ) : List (KubeResource × ℚ) → List (KubeResource × ℚ)
  | [] => [x]
  | y :: ys => if x.2 < y.2 then y :: insertByScore x ys else x :: y :: ys

/-- Stable descending sort by score (line 1455). -/
def sortByScoreDesc : List (KubeResource × ℚ) → List (KubeResource × ℚ)
  | [] => []
  | x :: xs => insertByScore x (sortByScoreDesc xs)

/-- `performSearch` (lines 1365-1461) as a function from the palette's
resource list, active filters, and query to the ranked result list
(resource, matchScore): apply active filters; an empty query short-circuits
to the first 50 filtered resources with nominal score 1; otherwise score
against the whitespace-separated terms, drop non-matches, sort stably by
descending score, and keep the top 50. -/
def performSearch (allResources : List KubeResource) (activeFilters : List Filter)
    (query : String) : List (KubeResource × ℚ) :=
  let filteredResources := applyFilters allResources activeFilters
  if query == "" then
    (filteredResources.take 50).map (fun r => (r, (1 : ℚ)))
  else
    (sortByScoreDesc (scoreResults filteredResources (searchTerms query))).take 50

/-! ## Sample resources used by concrete witnesses and counterexamples -/

/-- A pod `Pod/ns1/a`, as in the spec's test scenario. -/
def pod_a : KubeResource := ⟨"Pod", "a", some "ns1", "u1", "v1"⟩

/-- A service `Service/ns1/a`, as in the spec's test scenario. -/
def svc_a : KubeResource := ⟨"Service", "a", some "ns1", "u2", "v1"⟩

/-! ## C6: filters combine by logical AND of per-attribute tests -/

/-- The claim's description of one filter's meaning: `kind` is a
case-insensitive equality test on the resource kind, `namespace` a
case-insensitive equality test on the resource namespace, and `node` matches
only resources whose own kind is the grouping kind `Node` and whose name
equals the filter value (the equality on the name being the same
case-insensitive equality test as the other attributes). -/
def filterSpecHolds (f : Filter) (r : KubeResource) : Prop :=
  match f.type with
  | .kind => lc r.kind = lc f.value
  | .ns => ∃ s, r.ns = some s ∧ lc s = lc f.value
  | .node => r.kind = "Node" ∧ lc r.name = lc f.value

theorem matchesFilter_iff (f : Filter) (r : KubeResource) :
    matchesFilter f r = true ↔ filterSpecHolds f r := by
  cases f with
  | mk t v =>
    cases t with
    | kind => simp [matchesFilter, filterSpecHolds]
    | ns =>
      cases h : r.ns with
      | none => simp [matchesFilter, filterSpecHolds, h]
      | some s => simp [matchesFilter, filterSpecHolds, h]
    | node => simp [matchesFilter, filterSpecHolds]

theorem applyFilters_mem (fs : List Filter) (rs : List KubeResource) (r : KubeResource) :
    r ∈ applyFilters rs fs ↔ r ∈ rs ∧ ∀ f ∈ fs, matchesFilter f r = true := by
  induction fs generalizing rs with
  | nil => simp [applyFilters]
  | cons f fs ih =>
    have hstep : applyFilters rs (f :: fs) =
        applyFilters (rs.filter (fun r => matchesFilter f r)) fs := rfl
    rw [hstep, ih]
    simp only [List.mem_filter]
    constructor
    · rintro ⟨⟨hrs, hf⟩, hrest⟩
      exact ⟨hrs, fun g hg => by
        rcases List.mem_cons.mp hg with h | h
        · exact h ▸ hf
        · exact hrest g h⟩
    · rintro ⟨hrs, hall⟩
      exact ⟨⟨hrs, hall f (List.mem_cons_self f fs)⟩,
        fun g hg => hall g (List.mem_cons_of_mem f hg)⟩

/-- C6: applying the active filters keeps exactly the resources satisfying
every filter (logical AND), with each attribute's test as the claim
describes it. -/
theorem applyFilters_and_semantics (rs : List KubeResource) (fs : List Filter)
    (r : KubeResource) :
    r ∈ applyFilters rs fs ↔ r ∈ rs ∧ ∀ f ∈ fs, filterSpecHolds f r := by
  rw [applyFilters_mem]
  constructor
  · rintro ⟨hrs, hall⟩
    exact ⟨hrs, fun f hf => (matchesFilter_iff f r).mp (hall f hf)⟩
  · rintro ⟨hrs, hall⟩
    exact ⟨hrs, fun f hf => (matchesFilter_iff f r).mpr (hall f hf)⟩

/-! ## C2: AND semantics and additive scoring of the ranked search -/

theorem termMatches_pos (r : KubeResource) (t : List Char)
    (h : termMatches r t = true) : 0 < termScore r t := by
  by_cases h1 : containsSub t (displayTextLower r)
  · simp [termScore, h1]
  · by_cases h2 : containsSub t (nameLower r)
    · simp [termScore, h1, h2]
    · by_cases h3 : containsSub t (kindLower r)
      · simp [termScore, h1, h2, h3]
      · by_cases h4 : containsSub t (namespaceLower r)
        · simp [termScore, h1, h2, h3, h4]
        · have h5 : 0 < fuzzyMatch (displayTextLower r) t := by
            simpa [termMatches, h1, h2, h3, h4] using h
          have : (0 : ℚ) < fuzzyMatch (displayTextLower r) t * 2 :=
            mul_pos h5 (by norm_num)
          simpa [termScore, h1, h2, h3, h4] using this

theorem matchScoreGo_cons (r : KubeResource) (t : List Char) (rest : List (List Char))
    (acc : ℚ) :
    matchScoreGo r (t :: rest) acc =
      if termMatches r t = true then matchScoreGo r rest (acc + termScore r t) else 0 := by
  by_cases h1 : containsSub t (displayTextLower r)
  · simp [matchScoreGo, termScore, termMatches, h1]
  · by_cases h2 : containsSub t (nameLower r)
    · simp [matchScoreGo, termScore, termMatches, h1, h2]
    · by_cases h3 : containsSub t (kindLower r)
      · simp [matchScoreGo, termScore, termMatches, h1, h2, h3]
      · by_cases h4 : containsSub t (namespaceLower r)
        · simp [matchScoreGo, termScore, termMatches, h1, h2, h3, h4]
        · by_cases h5 : 0 < fuzzyMatch (displayTextLower r) t
          · simp [matchScoreGo, termScore, termMatches, h1, h2, h3, h4, h5]
          · simp [matchScoreGo, termScore, termMatches, h1, h2, h3, h4, h5]

theorem matchScoreGo_eq (r : KubeResource) (terms : List (List Char)) :
    ∀ acc : ℚ, matchScoreGo r terms acc =
      if terms.all (termMatches r) then acc + ((terms.map (termScore r)).sum) else 0 := by
  induction terms with
  | nil => intro acc; simp [matchScoreGo]
  | cons t rest ih =>
    intro acc
    rw [matchScoreGo_cons]
    by_cases hm : termMatches r t = true
    · rw [if_pos hm, ih (acc + termScore r t)]
      by_cases ha : rest.all (termMatches r)
      · simp only [List.all_cons, hm, ha, Bool.and_self, if_pos, List.map_cons,
          List.sum_cons]
        ring
      · simp [List.all_cons, hm, ha]
    · simp [List.all_cons, hm]

theorem matchScore_eq (r : KubeResource) (terms : List (List Char)) :
    matchScore r terms =
      if terms.all (termMatches r) then ((terms.map (termScore r)).sum) else 0 := by
  rw [matchScore, matchScoreGo_eq]
  by_cases h : terms.all (termMatches r) <;> simp [h]

theorem mem_scoreResults (rs : List KubeResource) (terms : List (List Char))
    (r : KubeResource) (s : ℚ) :
    (r, s) ∈ scoreResults rs terms ↔ r ∈ rs ∧ s = matchScore r terms ∧ 0 < s := by
  simp only [scoreResults, List.mem_filter, List.mem_map, decide_eq_true_eq]
  constructor
  · rintro ⟨⟨a, ha, heq⟩, hpos⟩
    obtain ⟨rfl, rfl⟩ : a = r ∧ matchScore a terms = s := by
      simpa [Prod.ext_iff] using heq
    exact ⟨ha, rfl, hpos⟩
  · rintro ⟨hr, rfl, hpos⟩
    exact ⟨⟨r, hr, rfl⟩, hpos⟩

/-- C2 (amended): for every query with at least one whitespace-separated
term, a resource survives the map-then-filter stage of `performSearch` if and
only if every term matches it through some tier of the cascade, its score
there is the sum of its per-term tier scores, and the displayed ranking is
the stable descending sort of that stage truncated to the top 50. -/
theorem performSearch_and_semantics (rs : List KubeResource) (q : String)
    (r : KubeResource) (hq : searchTerms q ≠ []) :
    ((∃ s, (r, s) ∈ scoreResults rs (searchTerms q)) ↔
      (r ∈ rs ∧ ∀ t ∈ searchTerms q, termMatches r t = true)) ∧
    (∀ s, (r, s) ∈ scoreResults rs (searchTerms q) →
      s = ((searchTerms q).map (termScore r)).sum) ∧
    performSearch rs [] q = (sortByScoreDesc (scoreResults rs (searchTerms q))).take 50 := by
  have hq' : (q == "") = false := by
    rcases h : q == "" with _ | _
    · rfl
    · exact absurd (by rw [eq_of_beq h]; rfl) hq
  refine ⟨⟨?_, ?_⟩, ?_, ?_⟩
  · rintro ⟨s, hs⟩
    obtain ⟨hr, rfl, hpos⟩ := (mem_scoreResults _ _ _ _).mp hs
    refine ⟨hr, fun t ht => ?_⟩
    by_contra hnot
    have hall : (searchTerms q).all (termMatches r) = false := by
      rcases h : (searchTerms q).all (termMatches r) with _ | _
      · rfl
      · exact absurd (List.all_eq_true.mp h t ht) hnot
    rw [matchScore_eq, hall] at hpos
    simp at hpos
  · rintro ⟨hr, hall⟩
    have hall' : (searchTerms q).all (termMatches r) = true :=
      List.all_eq_true.mpr hall
    refine ⟨matchScore r (searchTerms q), (mem_scoreResults _ _ _ _).mpr ⟨hr, rfl, ?_⟩⟩
    rw [matchScore_eq, hall']
    obtain ⟨t0, rest, hcons⟩ : ∃ t0 rest, searchTerms q = t0 :: rest := by
      cases h : searchTerms q with
      | nil => exact absurd h hq
      | cons a l => exact ⟨a, l, rfl⟩
    rw [hcons]
    have hpos0 : 0 < termScore r t0 :=
      termMatches_pos r t0 (hall t0 (by rw [hcons]; exact List.mem_cons_self _ _))
    have hrest : 0 ≤ (rest.map (termScore r)).sum := by
      apply List.sum_nonneg
      intro x hx
      obtain ⟨t, ht, rfl⟩ := List.mem_map.mp hx
      exact le_of_lt (termMatches_pos r t (hall t (by rw [hcons]; exact List.mem_cons_of_mem _ ht)))
    simpa using add_pos_of_pos_of_nonneg hpos0 hrest
  · rintro s hs
    obtain ⟨hr, rfl, hpos⟩ := (mem_scoreResults _ _ _ _).mp hs
    have hall : (searchTerms q).all (termMatches r) = true := by
      rcases h : (searchTerms q).all (termMatches r) with _ | _
      · rw [matchScore_eq, h] at hpos; simp at hpos
      · rfl
    rw [matchScore_eq, hall]
    simp
  · simp [performSearch, applyFilters, hq']

/-- Witness for `performSearch_and_semantics` at query `"a"` over the single
resource `Pod/ns1/a`. -/
theorem performSearch_and_semantics_witness :
    ((∃ s, (pod_a, s) ∈ scoreResults [pod_a] (searchTerms "a")) ↔
      (pod_a ∈ [pod_a] ∧ ∀ t ∈ searchTerms "a", termMatches pod_a t = true)) ∧
    (∀ s, (pod_a, s) ∈ scoreResults [pod_a] (searchTerms "a") →
      s = ((searchTerms "a").map (termScore pod_a)).sum) ∧
    performSearch [pod_a] [] "a" =
      (sortByScoreDesc (scoreResults [pod_a] (searchTerms "a"))).take 50 :=
  performSearch_and_semantics [pod_a] "a" pod_a (by decide)

/-- C2 counterexample: at the non-empty query `" "` (one space) the term
list is empty, so every term vacuously matches the resource `Pod/ns1/a`,
yet `performSearch` returns no results — the claimed inclusion equivalence
fails for whitespace-only queries. -/
theorem performSearch_counterexample :
    ¬ ((pod_a ∈ (performSearch [pod_a] [] " ").map Prod.fst) ↔
        (∀ t ∈ searchTerms " ", termMatches pod_a t = true)) := by
  decide

/-! ## C9: `addFilter` is idempotent (lines 1267-1290) -/

/-- `addFilter` (lines 1267-1290) restricted to its effect on the
`activeFilters` array: if some active filter already has the same type and
value the call is a no-op, otherwise the new filter is pushed at the end.
(The function's remaining statements clear the input buffer and re-render;
they do not touch the filter list.) -/
def addFilter (filters : List Filter) (t : FilterType) (v : String) : List Filter :=
  if filters.any (fun f => decide (f.type = t) && decide (f.value = v)) then filters
  else filters ++ [⟨t, v⟩]

theorem mem_iff_any_eq (filters : List Filter) (t : FilterType) (v : String) :
    (⟨t, v⟩ : Filter) ∈ filters ↔
      filters.any (fun f => decide (f.type = t) && decide (f.value = v)) = true := by
  rw [List.any_eq_true]
  constructor
  · intro h
    exact ⟨⟨t, v⟩, h, by simp⟩
  · rintro ⟨⟨ft, fv⟩, hf, heq⟩
    obtain ⟨rfl, rfl⟩ : ft = t ∧ fv = v := by simpa using heq
    exact hf

/-- C9: adding an (attribute, value) pair already present leaves the filter
list — size, contents and order — unchanged, and adding the same pair twice
yields the same list as adding it once. -/
theorem addFilter_idempotent (filters : List Filter) (t : FilterType) (v : String) :
    ((⟨t, v⟩ : Filter) ∈ filters → addFilter filters t v = filters) ∧
    addFilter (addFilter filters t v) t v = addFilter filters t v := by
  constructor
  · intro hmem
    simp [addFilter, (mem_iff_any_eq filters t v).mp hmem]
  · have hmem : (⟨t, v⟩ : Filter) ∈ addFilter filters t v := by
      by_cases h : filters.any (fun f => decide (f.type = t) && decide (f.value = v)) = true
      · rw [addFilter, if_pos h]
        exact (mem_iff_any_eq filters t v).mpr h
      · rw [addFilter, if_neg h]
        simp
    have hany := (mem_iff_any_eq (addFilter filters t v) t v).mp hmem
    have hunfold : addFilter (addFilter filters t v) t v =
        if (addFilter filters t v).any
            (fun f => decide (f.type = t) && decide (f.value = v)) then
          addFilter filters t v
        else addFilter filters t v ++ [⟨t, v⟩] := rfl
    rw [hunfold, if_pos hany]

/-- Witness for `addFilter_idempotent` with `kind:Pod` already present. -/
theorem addFilter_idempotent_witness :
    (addFilter [⟨FilterType.kind, "Pod"⟩] FilterType.kind "Pod" = [⟨FilterType.kind, "Pod"⟩]) ∧
    addFilter (addFilter [⟨FilterType.kind, "Pod"⟩] FilterType.kind "Pod") FilterType.kind "Pod" =
      addFilter [⟨FilterType.kind, "Pod"⟩] FilterType.kind "Pod" :=
  ⟨(addFilter_idempotent [⟨FilterType.kind, "Pod"⟩] FilterType.kind "Pod").1 (by decide),
   (addFilter_idempotent [⟨FilterType.kind, "Pod"⟩] FilterType.kind "Pod").2⟩

/-! ## C4: command execution validates its resource requirement (lines 1984-2036) -/

/-- `Command` record (lines 29-36) without its `execute` closure: the
dispatcher's validation only reads these fields, and the closure's invocation
is represented by the `executed` outcome below. -/
structure Command where
  id : String
  label : String
  description : String
  requiresResource : Bool
  resourceTypes : Option (List String)
deriving DecidableEq, Repr

/-- Outcome of a dispatch: either the command's `execute` effect is invoked
(with the resource it receives), or the dispatch aborts with the
user-visible `alert` message shown. -/
inductive ExecOutcome where
  | executed (resource : Option KubeResource)
  | rejected (message : String)
deriving DecidableEq, Repr

/-- The `alert` text of `executeCommand` when a resource-requiring command is
dispatched with no selected resource (line 2015). -/
def noResourceMessage : String :=
  "Please select a resource first (use up/down arrows and Enter to select)"

/-- The `alert` text when the selected resource's kind is not among the
command's accepted kinds (lines 1924 and 2026). -/
def kindMismatchMessage (ts : List String) : String :=
  "This command only works with " ++ String.intercalate ", " ts ++ " resources"

/-- The validation-and-dispatch tail of `executeCommand` (lines 2011-2035):
a resource-requiring command aborts with an alert when nothing is selected,
then aborts with an alert when the command declares accepted kinds and the
selected resource's kind is not among them; otherwise the command's effect
runs with the selected resource.  A command that does not require a resource
runs with none. -/
def executeCommand (cmd : Command) (selectedResult : Option KubeResource) : ExecOutcome :=
  if cmd.requiresResource then
    match selectedResult with
    | none => .rejected noResourceMessage
    | some r =>
      match cmd.resourceTypes with
      | some ts =>
        if r.kind ∈ ts then .executed (some r) else .rejected (kindMismatchMessage ts)
      | none => .executed (some r)
  else .executed none

/-- `executeCommandOnResource` (lines 1917-1930): same accepted-kind check
performed when a resource is chosen from the command's resource list. -/
def executeCommandOnResource (cmd : Command) (r : KubeResource) : ExecOutcome :=
  match cmd.resourceTypes with
  | some ts =>
    if r.kind ∈ ts then .executed (some r) else .rejected (kindMismatchMessage ts)
  | none => .executed (some r)

/-- C4: dispatching a resource-requiring command with no selection, or with a
selected resource whose kind is outside the command's accepted kinds, never
invokes the command's effect and surfaces the corresponding alert message;
and whenever the effect does run, a resource was selected and satisfied any
declared accepted-kind constraint. -/
theorem executeCommand_validates (cmd : Command) (sel : Option KubeResource)
    (hreq : cmd.requiresResource = true) :
    (sel = none → executeCommand cmd sel = .rejected noResourceMessage) ∧
    (∀ r ts, sel = some r → cmd.resourceTypes = some ts → r.kind ∉ ts →
      executeCommand cmd sel = .rejected (kindMismatchMessage ts)) ∧
    (∀ r ts, cmd.resourceTypes = some ts → r.kind ∉ ts →
      executeCommandOnResource cmd r = .rejected (kindMismatchMessage ts)) ∧
    (∀ o, executeCommand cmd sel = .executed o →
      ∃ r, sel = some r ∧ o = some r ∧ ∀ ts, cmd.resourceTypes = some ts → r.kind ∈ ts) := by
  refine ⟨?_, ?_, ?_, ?_⟩
  · rintro rfl
    simp [executeCommand, hreq]
  · rintro r ts rfl hts hnot
    simp [executeCommand, hreq, hts, hnot]
  · rintro r ts hts hnot
    simp [executeCommandOnResource, hts, hnot]
  · intro o
    cases sel with
    | none => simp [executeCommand, hreq]
    | some r =>
      cases hts : cmd.resourceTypes with
      | none =>
        intro h
        refine ⟨r, rfl, ?_, by simp [hts]⟩
        exact ((by simpa [executeCommand, hreq, hts] using h : some r = o)).symm
      | some ts =>
        by_cases hk : r.kind ∈ ts
        · intro h
          refine ⟨r, rfl, ?_, ?_⟩
          · exact ((by simpa [executeCommand, hreq, hts, hk] using h : some r = o)).symm
          · intro ts' hts'
            obtain rfl : ts = ts' := by simpa [hts] using hts'
            exact hk
        · intro h
          simp [executeCommand, hreq, hts, hk] at h

/-- Witness for `executeCommand_validates`: the `logs` command (accepts only
`Pod`) dispatched with no selection. -/
theorem executeCommand_validates_witness :
    (none = (none : Option KubeResource) →
      executeCommand ⟨"logs", "logs", "View pod logs", true, some ["Pod"]⟩ none =
        .rejected noResourceMessage) ∧
    (∀ r ts, (none : Option KubeResource) = some r →
      (⟨"logs", "logs", "View pod logs", true, some ["Pod"]⟩ : Command).resourceTypes = some ts →
      r.kind ∉ ts →
      executeCommand ⟨"logs", "logs", "View pod logs", true, some ["Pod"]⟩ none =
        .rejected (kindMismatchMessage ts)) ∧
    (∀ r ts, (⟨"logs", "logs", "View pod logs", true, some ["Pod"]⟩ : Command).resourceTypes = some ts →
      r.kind ∉ ts →
      executeCommandOnResource ⟨"logs", "logs", "View pod logs", true, some ["Pod"]⟩ r =
        .rejected (kindMismatchMessage ts)) ∧
    (∀ o, executeCommand ⟨"logs", "logs", "View pod logs", true, some ["Pod"]⟩ none = .executed o →
      ∃ r, (none : Option KubeResource) = some r ∧ o = some r ∧
        ∀ ts, (⟨"logs", "logs", "View pod logs", true, some ["Pod"]⟩ : Command).resourceTypes = some ts →
          r.kind ∈ ts) :=
  executeCommand_validates ⟨"logs", "logs", "View pod logs", true, some ["Pod"]⟩ none rfl

/-! ## C5: the delete command is gated on explicit confirmation (lines 345-374) -/

/-- Observable effects of the `delete` command's `execute` closure. -/
inductive DeleteEffect where
  | confirmPrompt (message : String)
  | postDeleteResource (resource : KubeResource)
  | alertMessage (message : String)
  | refreshResources
deriving DecidableEq, Repr

/-- The `kind/namespace/name` (or `kind/name`) label built at lines 351-353. -/
def resourceDisplayName (r : KubeResource) : String :=
  match r.ns with
  | some n => r.kind ++ "/" ++ n ++ "/" ++ r.name
  | none => r.kind ++ "/" ++ r.name

/-- Event trace of the `delete` command's `execute` closure (lines 349-373):
with no resource nothing happens; otherwise the confirmation prompt is shown
and, only when it returns affirmative, the delete request is posted to the
cluster iframe (`deleteResource` → `requestDeleteResourceFromIframe`),
followed by a success alert and a refresh, or a failure alert carrying the
error.  `deleteError = none` means the remote delete succeeded. -/
def deleteCommandTrace (resource : Option KubeResource) (confirmed : Bool)
    (deleteError : Option String) : List DeleteEffect :=
  match resource with
  | none => []
  | some r =>
    let name := resourceDisplayName r
    .confirmPrompt ("Are you sure you want to delete " ++ name ++
        "?\n\nThis action cannot be undone.") ::
      (if confirmed then
        .postDeleteResource r ::
          (match deleteError with
           | none => [.alertMessage ("Successfully deleted " ++ name), .refreshResources]
           | some e => [.alertMessage ("Failed to delete " ++ name ++ ": " ++ e)])
      else [])

/-- C5: a declined confirmation produces no delete request (and no deletion
effect at all beyond the prompt), and any delete request appearing in a trace
implies the confirmation returned affirmative for that very resource. -/
theorem deleteCommand_requires_confirmation (resource : Option KubeResource)
    (deleteError : Option String) :
    ((deleteCommandTrace resource false deleteError).filter
        (fun e => match e with | .postDeleteResource _ => true | _ => false) = []) ∧
    (∀ confirmed r, DeleteEffect.postDeleteResource r ∈
        deleteCommandTrace resource confirmed deleteError →
      confirmed = true ∧ resource = some r) := by
  constructor
  · cases resource with
    | none => rfl
    | some r => simp [deleteCommandTrace]
  · intro confirmed r hmem
    cases resource with
    | none => simp [deleteCommandTrace] at hmem
    | some r' =>
      cases confirmed with
      | false => simp [deleteCommandTrace] at hmem
      | true =>
        refine ⟨rfl, ?_⟩
        cases deleteError with
        | none =>
          obtain rfl : r = r' := by simpa [deleteCommandTrace] using hmem
          rfl
        | some e =>
          obtain rfl : r = r' := by simpa [deleteCommandTrace] using hmem
          rfl

/-- Witness for `deleteCommand_requires_confirmation`: a confirmed successful
deletion of `Pod/ns1/a` does contain the delete request, and the theorem then
forces `confirmed = true`. -/
theorem deleteCommand_requires_confirmation_witness :
    (DeleteEffect.postDeleteResource pod_a ∈ deleteCommandTrace (some pod_a) true none) ∧
    (true = true ∧ some pod_a = some pod_a) :=
  ⟨by simp [deleteCommandTrace],
   (deleteCommand_requires_confirmation (some pod_a) none).2 true pod_a
     (by simp [deleteCommandTrace])⟩

/-! ## C1: per-context cache and the stale-while-revalidate refresh
(`loadResources`, lines 797-825, and `loadResourcesViaIPC`, lines 132-177) -/

/-- The palette's resource-related mutable fields: the visible resource list
(`allResources`) and the per-cluster cache (`resourceCache`, a `Map` embedded
as an association list keyed by cluster id). -/
structure PaletteResourceState where
  allResources : List KubeResource
  resourceCache : List (String × List KubeResource)
deriving DecidableEq, Repr

/-- `resourceCache.get(cid)` on the association-list embedding. -/
def cacheGet (cache : List (String × List KubeResource)) (cid : String) :
    Option (List KubeResource) :=
  (cache.find? (fun p => p.1 == cid)).map (fun p => p.2)

/-- `resourceCache.set(cid, rs)`: replace the entry in place, or append. -/
def cacheSet (cache : List (String × List KubeResource)) (cid : String)
    (rs : List KubeResource) : List (String × List KubeResource) :=
  if (cache.find? (fun p => p.1 == cid)).isSome then
    cache.map (fun p => if p.1 == cid then (p.1, rs) else p)
  else cache ++ [(cid, rs)]

/-- Result of the awaited `requestResourcesFromIframe` round trip: the
resolved resource list, or the rejection (timeout or remote error). -/
inductive FetchOutcome where
  | success (resources : List KubeResource)
  | failure (error : String)
deriving DecidableEq, Repr

/-- `loadResourcesViaIPC` (lines 132-177) as a state transformer.  In the
`try` block: with an active iframe the awaited fetch either replaces
`allResources` and (when a cluster id is known) writes the cache entry, or —
in the `catch` — sets `allResources` to the empty list, leaving the cache
untouched.  With no active iframe `allResources` becomes empty and the
(empty) list is cached when a cluster id is known.  The `showLoading` flag
only drives the loading indicator and is dropped here. -/
def loadResourcesViaIPC (st : PaletteResourceState) (currentClusterId : Option String)
    (hasActiveIframe : Bool) (outcome : FetchOutcome) : PaletteResourceState :=
  if hasActiveIframe then
    match outcome with
    | .success rs =>
      match currentClusterId with
      | some cid => { allResources := rs, resourceCache := cacheSet st.resourceCache cid rs }
      | none => { st with allResources := rs }
    | .failure _ => { st with allResources := [] }
  else
    match currentClusterId with
    | some cid => { allResources := [], resourceCache := cacheSet st.resourceCache cid [] }
    | none => { st with allResources := [] }

/-- `loadResources` (lines 797-825): in a cluster context, a cache hit makes
the cached snapshot visible immediately (`allResources := cached`, rendered)
and then runs the background refresh (`loadResourcesViaIPC(false)`); a cache
miss awaits `loadResourcesViaIPC(true)` directly; outside a cluster context
the resource list is simply emptied.  `outcome` is the settlement of the one
fetch the call performs. -/
def loadResources (st : PaletteResourceState) (currentClusterId : Option String)
    (hasActiveIframe : Bool) (outcome : FetchOutcome) : PaletteResourceState :=
  if hasActiveIframe || currentClusterId.isSome then
    match currentClusterId with
    | some cid =>
      match cacheGet st.resourceCache cid with
      | some cached =>
        loadResourcesViaIPC { st with allResources := cached } currentClusterId
          hasActiveIframe outcome
      | none => loadResourcesViaIPC st currentClusterId hasActiveIframe outcome
    | none => loadResourcesViaIPC st currentClusterId hasActiveIframe outcome
  else { st with allResources := [] }

/-- C1 (code behaviour at the claim's scenario): with cluster `cluster-1`
holding the cached snapshot `[Pod/ns1/a]`, opening on the cache hit and
having the background refresh fail leaves the cache entry equal to the
snapshot — but the visible resource list is reset to the empty list by the
`catch` block of `loadResourcesViaIPC` (line 166), not left at the snapshot
as the claim states. -/
theorem cacheHit_refreshFailure_behaviour :
    (loadResources ⟨[], [("cluster-1", [pod_a])]⟩ (some "cluster-1") true
        (.failure "network error")).resourceCache = [("cluster-1", [pod_a])] ∧
    (loadResources ⟨[], [("cluster-1", [pod_a])]⟩ (some "cluster-1") true
        (.failure "network error")).allResources = [] ∧
    (loadResources ⟨[], [("cluster-1", [pod_a])]⟩ (some "cluster-1") true
        (.success [pod_a])).allResources = [pod_a] := by
  decide

/-! ## C3: the correlated message channel rejects on timeout and cleans up
exactly once (`requestResourcesFromIframe`, lines 179-213;
`requestDeleteResourceFromIframe`, lines 2105-2140;
`requestLogsFromIframe`, lines 2142-2177) -/

/-- The timeout passed to `setTimeout` in all three request helpers
(lines 185, 2111, 2148). -/
def requestTimeoutMs : Nat := 10000

/-- The response `type` tag and timeout rejection message of one of the three
request helpers. -/
structure ChannelSpec where
  responseType : String
  timeoutMessage : String
deriving DecidableEq, Repr

/-- `requestResourcesFromIframe` listens for `k-menu-resources-response`. -/
def resourcesChannel : ChannelSpec := ⟨"k-menu-resources-response", "Resource request timeout"⟩

/-- `requestDeleteResourceFromIframe` listens for `k-menu-delete-response`. -/
def deleteChannel : ChannelSpec := ⟨"k-menu-delete-response", "Delete request timeout"⟩

/-- `requestLogsFromIframe` listens for `k-menu-logs-response`. -/
def logsChannel : ChannelSpec := ⟨"k-menu-logs-response", "Logs request timeout"⟩

/-- The observable state of one pending request: whether its message listener
is still registered, whether its timer is still armed, how the promise
settled (`none` while pending; delete/logs resolutions carry the empty
resource list), and how many times the `cleanup` closure has run. -/
instance : DecidableEq (Except String (List KubeResource))
  | .error a, .error b =>
    if h : a = b then .isTrue (by rw [h]) else .isFalse (by intro hh; cases hh; exact h rfl)
  | .error _, .ok _ => .isFalse (by intro hh; cases hh)
  | .ok _, .error _ => .isFalse (by intro hh; cases hh)
  | .ok a, .ok b =>
    if h : a = b then .isTrue (by rw [h]) else .isFalse (by intro hh; cases hh; exact h rfl)

structure PendingRequest where
  listenerRegistered : Bool
  timerActive : Bool
  result : Option (Except String (List KubeResource))
  cleanupRuns : Nat
deriving DecidableEq, Repr

/-- State right after `window.addEventListener` and `setTimeout`: listener
registered, timer armed, promise pending, cleanup never run. -/
def initialRequest : PendingRequest :=
  { listenerRegistered := true, timerActive := true, result := none, cleanupRuns := 0 }

/-- Events the single-threaded event loop can deliver to one pending
request: a `message` event (any type tag, correlation id, optional error
field and resource payload — the transport is broadcast and untyped), or the
firing of the request's own timer. -/
inductive ChannelEvent where
  | message (type : String) (requestId : String) (error : Option String)
      (resources : List KubeResource)
  | timerFire
deriving DecidableEq, Repr

/-- Does an event carry a response envelope matching this request's type tag
and correlation id (the guard at lines 188, 2114, 2151)? -/
def matchesResponse (ch : ChannelSpec) (requestId : String) : ChannelEvent → Bool
  | .message t rid _ _ => decide (t = ch.responseType) && decide (rid = requestId)
  | .timerFire => false

/-- One event-loop step of a pending request.  A message event runs the
handler only while the listener is registered; a matching envelope runs
`cleanup` (unregisters the listener, clears the timer) and settles the
promise with the payload or the carried error (lines 187-197).  The timer
callback runs only while the timer is armed (`clearTimeout` in `cleanup`
prevents a later fire); it runs `cleanup` and rejects with the timeout error
(lines 182-185). -/
def requestStep (ch : ChannelSpec) (requestId : String) (s : PendingRequest)
    (e : ChannelEvent) : PendingRequest :=
  match e with
  | .message t rid err rs =>
    if s.listenerRegistered then
      if matchesResponse ch requestId (.message t rid err rs) then
        { listenerRegistered := false, timerActive := false,
          cleanupRuns := s.cleanupRuns + 1,
          result := some (match err with | some m => .error m | none => .ok rs) }
      else s
    else s
  | .timerFire =>
    if s.timerActive then
      { listenerRegistered := false, timerActive := false,
        cleanupRuns := s.cleanupRuns + 1,
        result := some (.error ch.timeoutMessage) }
    else s

/-- The request's state after the event loop delivers a sequence of events. -/
def runRequest (ch : ChannelSpec) (requestId : String) (events : List ChannelEvent) :
    PendingRequest :=
  events.foldl (requestStep ch requestId) initialRequest

/-- Invariant tying cleanup, listener, timer, and settlement together. -/
def RequestInv (s : PendingRequest) : Prop :=
  s.cleanupRuns ≤ 1 ∧ (s.result.isSome ↔ s.cleanupRuns = 1) ∧
    (s.listenerRegistered = true ↔ s.result = none) ∧
    (s.timerActive = true ↔ s.result = none)

theorem requestStep_inv (ch : ChannelSpec) (requestId : String) (s : PendingRequest)
    (e : ChannelEvent) (h : RequestInv s) : RequestInv (requestStep ch requestId s e) := by
  obtain ⟨h1, h2, h3, h4⟩ := h
  cases e with
  | message t rid err rs =>
    by_cases hl : s.listenerRegistered = true
    · have hres : s.result = none := h3.mp hl
      have hc : s.cleanupRuns = 0 := by
        rcases Nat.lt_or_ge s.cleanupRuns 1 with h | h
        · omega
        · exact absurd (h2.mpr (by omega)) (by simp [hres])
      by_cases hm : matchesResponse ch requestId (.message t rid err rs) = true
      · cases err with
        | none => simp [requestStep, hl, hm, RequestInv, hc]
        | some m => simp [requestStep, hl, hm, RequestInv, hc]
      · have hid : requestStep ch requestId s (.message t rid err rs) = s := by
          simp [requestStep, hl, hm]
        rw [hid]
        exact ⟨h1, h2, h3, h4⟩
    · have hl' : s.listenerRegistered = false := by
        rcases hb : s.listenerRegistered with _ | _
        · rfl
        · exact absurd hb hl
      have hid : requestStep ch requestId s (.message t rid err rs) = s := by
        simp [requestStep, hl']
      rw [hid]
      exact ⟨h1, h2, h3, h4⟩
  | timerFire =>
    by_cases ht : s.timerActive = true
    · have hres : s.result = none := h4.mp ht
      have hc : s.cleanupRuns = 0 := by
        rcases Nat.lt_or_ge s.cleanupRuns 1 with h | h
        · omega
        · exact absurd (h2.mpr (by omega)) (by simp [hres])
      simp [requestStep, ht, RequestInv, hc]
    · have ht' : s.timerActive = false := by
        rcases hb : s.timerActive with _ | _
        · rfl
        · exact absurd hb ht
      have hid : requestStep ch requestId s .timerFire = s := by
        simp [requestStep, ht']
      rw [hid]
      exact ⟨h1, h2, h3, h4⟩

theorem requestStep_settled (ch : ChannelSpec) (requestId : String) (s : PendingRequest)
    (e : ChannelEvent) (hinv : RequestInv s) (x : Except String (List KubeResource))
    (hx : s.result = some x) : requestStep ch requestId s e = s := by
  obtain ⟨_, _, h3, h4⟩ := hinv
  have hl : s.listenerRegistered = false := by
    rcases hb : s.listenerRegistered with _ | _
    · rfl
    · exact absurd (h3.mp hb) (by simp [hx])
  have ht : s.timerActive = false := by
    rcases hb : s.timerActive with _ | _
    · rfl
    · exact absurd (h4.mp hb) (by simp [hx])
  cases e with
  | message t rid err rs => simp [requestStep, hl]
  | timerFire => simp [requestStep, ht]

theorem foldl_settled (ch : ChannelSpec) (requestId : String) (events : List ChannelEvent)
    (s : PendingRequest) (hinv : RequestInv s) (x : Except String (List KubeResource))
    (hx : s.result = some x) : events.foldl (requestStep ch requestId) s = s := by
  induction events with
  | nil => rfl
  | cons e rest ih =>
    simp only [List.foldl_cons, requestStep_settled ch requestId s e hinv x hx]
    exact ih

theorem initialRequest_inv : RequestInv initialRequest := by
  simp [RequestInv, initialRequest]

theorem runRequest_inv (ch : ChannelSpec) (requestId : String)
    (events : List ChannelEvent) : RequestInv (runRequest ch requestId events) := by
  rw [runRequest]
  induction events using List.reverseRecOn with
  | nil => exact initialRequest_inv
  | append_singleton rest e ih =>
    rw [List.foldl_append]
    exact requestStep_inv ch requestId _ e ih

/-- A fold over events none of which matches the request stays pending until
a timer fire, after which it is settled with the timeout rejection. -/
theorem foldl_no_match_timeout (ch : ChannelSpec) (requestId : String) :
    ∀ (events : List ChannelEvent) (s : PendingRequest), RequestInv s →
      (∀ e ∈ events, matchesResponse ch requestId e = false) → s.result = none →
      ChannelEvent.timerFire ∈ events →
      (events.foldl (requestStep ch requestId) s).result = some (.error ch.timeoutMessage) := by
  intro events
  induction events with
  | nil => intro s _ _ _ hmem; simp at hmem
  | cons e rest ih =>
    intro s hinv hnomatch hpending hmem
    cases e with
    | timerFire =>
      have ht : s.timerActive = true := hinv.2.2.2.mpr hpending
      have hstep : requestStep ch requestId s .timerFire =
          { listenerRegistered := false, timerActive := false,
            cleanupRuns := s.cleanupRuns + 1,
            result := some (.error ch.timeoutMessage) } := by
        simp [requestStep, ht]
      have hinv' : RequestInv (requestStep ch requestId s .timerFire) :=
        requestStep_inv ch requestId s .timerFire hinv
      rw [hstep] at hinv'
      rw [List.foldl_cons, hstep,
        foldl_settled ch requestId rest _ hinv' (.error ch.timeoutMessage) rfl]
    | message t rid err rs =>
      have hm : matchesResponse ch requestId (.message t rid err rs) = false :=
        hnomatch _ (List.mem_cons_self _ _)
      have hstep : requestStep ch requestId s (.message t rid err rs) = s := by
        by_cases hl : s.listenerRegistered = true
        · simp [requestStep, hl, hm]
        · have hl' : s.listenerRegistered = false := by
            rcases hb : s.listenerRegistered with _ | _
            · rfl
            · exact absurd hb hl
          simp [requestStep, hl']
      rw [List.foldl_cons, hstep]
      have hmem' : ChannelEvent.timerFire ∈ rest := by
        rcases List.mem_cons.mp hmem with h | h
        · exact absurd h (by simp)
        · exact h
      exact ih s hinv (fun e he => hnomatch e (List.mem_cons_of_mem _ he)) hpending hmem'

/-- C3: over any event sequence, a pending request runs its cleanup at most
once, and exactly once when (and only when) the promise settles; the
listener stays registered exactly while the promise is pending; if no
matching response envelope arrives before the 10000 ms timer fires, the
promise rejects with the channel's timeout error; and any number of
timed-out requests leave no listener registered. -/
theorem correlatedChannel_timeout_cleanup (ch : ChannelSpec) (requestId : String)
    (events : List ChannelEvent) :
    requestTimeoutMs = 10000 ∧
    (runRequest ch requestId events).cleanupRuns ≤ 1 ∧
    ((runRequest ch requestId events).result.isSome ↔
      (runRequest ch requestId events).cleanupRuns = 1) ∧
    ((runRequest ch requestId events).listenerRegistered = true ↔
      (runRequest ch requestId events).result = none) ∧
    ((∀ e ∈ events, matchesResponse ch requestId e = false) →
      ChannelEvent.timerFire ∈ events →
      (runRequest ch requestId events).result = some (.error ch.timeoutMessage) ∧
      (runRequest ch requestId events).listenerRegistered = false) ∧
    (∀ ids : List String,
      (ids.map (fun i => runRequest ch i [ChannelEvent.timerFire])).all
        (fun s => !s.listenerRegistered) = true) := by
  obtain ⟨h1, h2, h3, h4⟩ := runRequest_inv ch requestId events
  refine ⟨rfl, h1, h2, h3, ?_, ?_⟩
  · intro hnomatch hmem
    have hres : (runRequest ch requestId events).result = some (.error ch.timeoutMessage) :=
      foldl_no_match_timeout ch requestId events initialRequest initialRequest_inv
        hnomatch rfl hmem
    refine ⟨hres, ?_⟩
    rcases hb : (runRequest ch requestId events).listenerRegistered with _ | _
    · rfl
    · exact absurd (h3.mp hb) (by simp [hres])
  · intro ids
    rw [List.all_eq_true]
    intro x hx
    obtain ⟨i, _, rfl⟩ := List.mem_map.mp hx
    rfl

/-- Witness for `correlatedChannel_timeout_cleanup` on the resources channel:
a non-matching envelope for another correlation id followed by the timer
firing leaves the concrete request rejected with the timeout error and its
listener removed. -/
theorem correlatedChannel_timeout_cleanup_witness :
    (runRequest resourcesChannel "abc123"
        [ChannelEvent.message "k-menu-resources-response" "zzz999" none [],
         ChannelEvent.timerFire]).result =
      some (.error resourcesChannel.timeoutMessage) ∧
    (runRequest resourcesChannel "abc123"
        [ChannelEvent.message "k-menu-resources-response" "zzz999" none [],
         ChannelEvent.timerFire]).listenerRegistered = false :=
  (correlatedChannel_timeout_cleanup resourcesChannel "abc123"
    [ChannelEvent.message "k-menu-resources-response" "zzz999" none [],
     ChannelEvent.timerFire]).2.2.2.2.1 (by decide) (by decide)

/-! ## C7: attribute suggestion derivation (`updateAutocompleteHint`,
lines 1032-1104 for command mode, lines 1146-1231 for plain search mode) -/

/-- The field an attribute's suggestions are drawn from, across the current
unfiltered resource set: `kind` takes every kind, `namespace` the namespaces
of resources that have a (truthy) one, `node` the names of resources whose
kind is exactly `Node`. -/
def fieldValues (attr : FilterType) (rs : List KubeResource) : List String :=
  match attr with
  | .kind => rs.map (fun r => r.kind)
  | .ns => (rs.filter (fun r => optTruthy r.ns)).filterMap (fun r => r.ns)
  | .node => (rs.filter (fun r => r.kind == "Node")).map (fun r => r.name)

/-- `Array.from(new Set(values))`: distinct values keeping first
occurrences. -/
def distinctAux : List String → List String → List String
  | [], _ => []
  | a :: l, seen => if seen.contains a then distinctAux l seen else a :: distinctAux l (a :: seen)

/-- Distinct values of a list, first occurrences first. -/
def distinctFirst (l : List String) : List String := distinctAux l []

/-- Lexicographic comparison of character lists by code point, embedding the
default JavaScript `Array.prototype.sort` string comparison. -/
def charsLe : List Char → List Char → Bool
  | [], _ => true
  | _ :: _, [] => false
  | a :: as, b :: bs => if a = b then charsLe as bs else decide (a < b)

/-- Stable insertion for the lexicographic sort. -/
def insertStr (x : String) : List String → List String
  | [] => [x]
  | y :: ys => if charsLe x.data y.data then x :: y :: ys else y :: insertStr x ys

/-- `values.sort()`: lexicographic sort of a string list. -/
def sortStrings : List String → List String
  | [] => []
  | x :: xs => insertStr x (sortStrings xs)

/-- `v.toLowerCase().includes(partial.toLowerCase())`: the case-insensitive
substring test the suggestion lists are narrowed by. -/
def ciContains (partialValue v : String) : Bool :=
  containsSub (lc partialValue) (lc v)

/-- Plain-search-mode suggestion derivation (lines 1146-1220): with an empty
partial value after the attribute prefix, the distinct field values are
sorted and capped at 10; with a non-empty partial value they are narrowed by
the case-insensitive substring test, sorted, and capped at 8. -/
def plainModeSuggestions (attr : FilterType) (rs : List KubeResource)
    (partialValue : String) : List String :=
  if partialValue == "" then
    (sortStrings (distinctFirst (fieldValues attr rs))).take 10
  else
    (sortStrings ((distinctFirst (fieldValues attr rs)).filter
      (fun v => ciContains partialValue v))).take 8

/-- Command-mode suggestion derivation (lines 1032-1104): for the `kind`
attribute under a command that declares `resourceTypes`, the candidates are
that declared list itself (sorted, uncapped when the partial value is empty);
every other case uses the distinct field values; a non-empty partial value
narrows by the case-insensitive substring test with a cap of 10 (lines
1093-1096), and an empty one caps at 10. -/
def commandModeSuggestions (attr : FilterType) (resourceTypes : Option (List String))
    (rs : List KubeResource) (partialValue : String) : List String :=
  if partialValue == "" then
    match attr, resourceTypes with
    | .kind, some ts => sortStrings ts
    | .kind, none => (sortStrings (distinctFirst (fieldValues .kind rs))).take 10
    | .ns, _ => (sortStrings (distinctFirst (fieldValues .ns rs))).take 10
    | .node, _ => (sortStrings (distinctFirst (fieldValues .node rs))).take 10
  else
    (sortStrings ((match attr, resourceTypes with
      | .kind, some ts => ts
      | .kind, none => distinctFirst (fieldValues .kind rs)
      | .ns, _ => distinctFirst (fieldValues .ns rs)
      | .node, _ => distinctFirst (fieldValues .node rs)).filter
        (fun v => ciContains partialValue v))).take 10

theorem containsSub_nil (hay : List Char) : containsSub [] hay = true := by
  cases hay <;> simp [containsSub, leadMatch]

theorem ciContains_empty (v : String) : ciContains "" v = true := by
  have : lc "" = [] := rfl
  rw [ciContains, this, containsSub_nil]

theorem filter_ciContains_empty (l : List String) :
    l.filter (fun v => ciContains "" v) = l :=
  List.filter_eq_self.mpr (fun v _ => ciContains_empty v)

/-- C7 (amended): in plain search mode the suggestions are the distinct field
values, narrowed by the case-insensitive substring test on the typed partial
value, sorted lexicographically, capped at 10 for an empty partial value and
at 8 otherwise; in command mode the cap is 10 in both cases, and for the
`kind` attribute of a command with declared accepted kinds the candidates are
the declared list itself — sorted and narrowed the same way, but uncapped
when the partial value is empty. -/
theorem attributeSuggestions_characterization (attr : FilterType)
    (rs : List KubeResource) (partialValue : String) :
    (plainModeSuggestions attr rs partialValue =
      (sortStrings ((distinctFirst (fieldValues attr rs)).filter
        (fun v => ciContains partialValue v))).take
          (if partialValue == "" then 10 else 8)) ∧
    (∀ rts, commandModeSuggestions attr rts rs partialValue =
      match attr, rts with
      | .kind, some ts =>
        if partialValue == "" then sortStrings ts
        else (sortStrings (ts.filter (fun v => ciContains partialValue v))).take 10
      | _, _ =>
        (sortStrings ((distinctFirst (fieldValues attr rs)).filter
          (fun v => ciContains partialValue v))).take 10) := by
  by_cases hp : partialValue == ""
  · have hempty : partialValue = "" := eq_of_beq hp
    subst hempty
    refine ⟨?_, ?_⟩
    · simp [plainModeSuggestions, filter_ciContains_empty]
    · intro rts
      cases attr <;> cases rts <;>
        simp [commandModeSuggestions, filter_ciContains_empty]
  · refine ⟨?_, ?_⟩
    · simp [plainModeSuggestions, hp]
    · intro rts
      cases attr <;> cases rts <;> simp [commandModeSuggestions, hp]

/-- Nine pods across nine distinct namespaces, each namespace containing the
letter `n`. -/
def ninePods : List KubeResource :=
  [⟨"Pod", "p1", some "ns1", "u1", "v1"⟩, ⟨"Pod", "p2", some "ns2", "u2", "v1"⟩,
   ⟨"Pod", "p3", some "ns3", "u3", "v1"⟩, ⟨"Pod", "p4", some "ns4", "u4", "v1"⟩,
   ⟨"Pod", "p5", some "ns5", "u5", "v1"⟩, ⟨"Pod", "p6", some "ns6", "u6", "v1"⟩,
   ⟨"Pod", "p7", some "ns7", "u7", "v1"⟩, ⟨"Pod", "p8", some "ns8", "u8", "v1"⟩,
   ⟨"Pod", "p9", some "ns9", "u9", "v1"⟩]

/-- C7 counterexample: in command mode (buffer `/logs namespace:n`), the
non-empty partial value `n` narrows the nine candidate namespaces to nine
matching suggestions — the code caps this list at 10 (line 1096), not at 8
as the claim states for every buffer state with a narrowing partial value. -/
theorem commandModeSuggestions_cap_counterexample :
    (commandModeSuggestions FilterType.ns (some ["Pod"]) ninePods "n").length = 9 ∧
    ¬ (commandModeSuggestions FilterType.ns (some ["Pod"]) ninePods "n").length ≤ 8 := by
  decide

/-! ## C8: Escape unwinds command mode but closes from plain attribute
suggestion (`handleKeyDown`, lines 1538-1737) -/

/-- The input-state fields `handleKeyDown` reads and writes when Escape is
pressed. -/
structure KeyState where
  isCommandMode : Bool
  activeCommand : Option Command
  commandSearchQuery : String
  autocompleteFilterType : Option FilterType
  autocompleteSuggestions : List String
  inputValue : String
deriving DecidableEq, Repr

/-- Result of pressing Escape: the palette stays open with the new input
state, or `close()` runs. -/
inductive EscapeOutcome where
  | stayOpen (s : KeyState)
  | closePalette
deriving DecidableEq, Repr

/-- The fully unwound input state: empty buffer, no command, no suggestions. -/
def clearedKeyState : KeyState :=
  { isCommandMode := false, activeCommand := none, commandSearchQuery := "",
    autocompleteFilterType := none, autocompleteSuggestions := [], inputValue := "" }

/-- The `handleInput()` call issued by each command-mode Escape branch: its
immediate `updateAutocompleteHint` pass on the (now empty) buffer resets the
command and autocomplete fields (lines 1139-1143 and 1221-1231).  Modelled
for the empty buffer only — the only case those branches produce. -/
def handleInputOnCleared (s : KeyState) : KeyState :=
  if s.inputValue == "" then
    { s with isCommandMode := false, activeCommand := none, commandSearchQuery := "",
             autocompleteSuggestions := [], autocompleteFilterType := none }
  else s

/-- The Escape cases of `handleKeyDown`, with each branch's field
assignments written exactly as in the source: in command mode with visible
filter suggestions (lines 1583-1595), in command-resource-select (lines
1602-1611), and in the command list (lines 1643-1650) the buffer is cleared,
command mode left, and `handleInput()` re-runs — the palette stays open;
outside command mode, both with visible attribute suggestions (lines
1699-1702) and with none (lines 1714-1717), `close()` runs. -/
def handleEscape (s : KeyState) : EscapeOutcome :=
  if s.isCommandMode then
    if s.autocompleteFilterType.isSome && decide (s.autocompleteSuggestions.length > 0) then
      .stayOpen (handleInputOnCleared
        { s with inputValue := "", isCommandMode := false, activeCommand := none,
                 commandSearchQuery := "", autocompleteFilterType := none,
                 autocompleteSuggestions := [] })
    else if s.activeCommand.isSome && s.commandSearchQuery != "" then
      .stayOpen (handleInputOnCleared
        { s with inputValue := "", isCommandMode := false, activeCommand := none,
                 commandSearchQuery := "" })
    else
      .stayOpen (handleInputOnCleared { s with inputValue := "", isCommandMode := false })
  else if decide (s.autocompleteSuggestions.length > 0) then
    .closePalette
  else
    .closePalette

/-- C8 (amended): Escape in any command-mode state (command list,
command-resource-select, or command-mode attribute suggestion) unwinds to
the fully cleared input state and keeps the palette open; Escape outside
command mode — including the plain attribute-suggest state with visible
suggestions — closes the palette. -/
theorem handleEscape_characterization (s : KeyState) :
    handleEscape s =
      if s.isCommandMode then .stayOpen clearedKeyState else .closePalette := by
  by_cases hcm : s.isCommandMode
  · rw [if_pos hcm]
    rw [handleEscape, if_pos hcm]
    by_cases h1 : s.autocompleteFilterType.isSome &&
        decide (s.autocompleteSuggestions.length > 0)
    · rw [if_pos h1]
      rfl
    · rw [if_neg h1]
      by_cases h2 : s.activeCommand.isSome && s.commandSearchQuery != ""
      · rw [if_pos h2]
        rfl
      · rw [if_neg h2]
        rfl
  · have hcm' : s.isCommandMode = false := by
      rcases hb : s.isCommandMode with _ | _
      · rfl
      · exact absurd hb hcm
    rw [if_neg hcm]
    rw [handleEscape, hcm']
    by_cases h : decide (s.autocompleteSuggestions.length > 0) = true
    · simp [h]
    · simp [h]

/-- C8 counterexample: in the plain attribute-suggest state (buffer
`kind:` with the suggestion strip showing `Pod`), Escape runs `close()`
rather than unwinding one level with the palette kept open. -/
theorem handleEscape_counterexample :
    handleEscape
      { isCommandMode := false, activeCommand := none, commandSearchQuery := "",
        autocompleteFilterType := some FilterType.kind,
        autocompleteSuggestions := ["Pod"], inputValue := "kind:" } =
      EscapeOutcome.closePalette ∧
    ({ isCommandMode := false, activeCommand := none, commandSearchQuery := "",
        autocompleteFilterType := some FilterType.kind,
        autocompleteSuggestions := ["Pod"], inputValue := "kind:" } : KeyState).autocompleteSuggestions
      ≠ [] := by
  decide

end KMenu
